import Mathlib

/-! # Verification of the `elephant` simulation subsystem


Shallow embedding of `src/elephant/simulation.py` (class `SimulationStore`)
and the creation-payload validation in `src/elephant/app.py`
(`SimulationCreateRequest._validate_uniform_carbon_values`).

Modelling conventions:
* Python floats (`grid_values`) are modelled as `ℚ`; every value handled by the
  simulation module is produced by `float(...)` on caller input and is treated
  exactly.  Call counters (`calls`, an `INTEGER[]` column) are `ℤ`.
* `uuid.uuid4()` is modelled as an injected identifier parameter `newId`;
  the injected time provider `self._time_provider` is modelled as a `now : ℕ`
  parameter.
* Each operation returns `(result, store, trace)`: the result
  (`Except SimError _`), the store visible after the call (commit keeps the
  mutation, rollback restores the snapshot — the transactional semantics of
  psycopg), and the list of transaction events the call performed
  (`exec` = a SQL statement, which implicitly opens a transaction when none is
  open, plus `commit` / `rollback`).
* Python list indexing (wrap-around for negative indices, `IndexError` out of
  range) is modelled by `pyIdx` / `pyGet` / `pySet`.
-/

namespace Elephant
/-- Simulation identifiers (`simulation_id`, a UUID rendered as a string). -/
abbrev SimId := String

/-- Error taxonomy of the simulation module: `SimulationNotFoundError`,
`ValueError` raised by input validation, Python `IndexError` / `TypeError`,
and a unique-key violation from the database. -/
inductive SimError
  | notFound
  | invalidInput
  | indexError
  | typeError
  | uniqueViolation
  deriving DecidableEq, Repr

/-- Decidable equality of operation results. -/
instance exceptDecidableEq {e a : Type} [DecidableEq e] [DecidableEq a] :
    DecidableEq (Except e a) := fun x y =>
  match x, y with
  | Except.ok u, Except.ok v =>
    if h : u = v then Decidable.isTrue (by rw [h]) else Decidable.isFalse (by simp [h])
  | Except.ok _, Except.error _ => Decidable.isFalse (by simp)
  | Except.error _, Except.ok _ => Decidable.isFalse (by simp)
  | Except.error u, Except.error v =>
    if h : u = v then Decidable.isTrue (by rw [h]) else Decidable.isFalse (by simp [h])

/-- Transaction events observable on the psycopg connection: executing a SQL
statement (which implicitly opens a transaction if none is open), committing,
and rolling back. -/
inductive TxEvent
  | exec
  | commit
  | rollback
  deriving DecidableEq, Repr

/-- Whether a transaction is still open after the given event sequence:
an `exec` opens one, `commit` and `rollback` close it. -/
def txOpenAfter (tr : List TxEvent) : Bool :=
  tr.foldl (fun _ e => match e with | .exec => true | .commit => false | .rollback => false)
    false

/-- One element of a Python tuple/list payload entry: a number or `None`. -/
inductive SimCell
  | num (q : ℚ)
  | noneVal
  deriving DecidableEq, Repr

/-- One element of the creation payload (`SimulationValueInput`): a bare
number, or a tuple/list of cells (the well-formed shape is `(value, calls)`). -/
inductive SimEntry
  | scalar (q : ℚ)
  | tupleEntry (cells : List SimCell)
  deriving DecidableEq, Repr

/-- Python `int()` on a rational: truncation toward zero. -/
def pyInt (q : ℚ) : ℤ := if 0 ≤ q then ⌊q⌋ else ⌈q⌉

/-- Resolve a Python list index for a list of length `len`: non-negative
indices must be `< len`, negative indices wrap once from the end, anything
else is out of range. -/
def pyIdx (len : ℕ) (i : ℤ) : Option ℕ :=
  if 0 ≤ i ∧ i < (len : ℤ) then some i.toNat
  else if -(len : ℤ) ≤ i ∧ i < 0 then some (i + len).toNat
  else none

/-- Python list read `xs[i]`: `IndexError` when out of range. -/
def pyGet {α : Type} (xs : List α) (i : ℤ) : Except SimError α :=
  match pyIdx xs.length i with
  | some n =>
    match xs.get? n with
    | some v => Except.ok v
    | none => Except.error SimError.indexError
  | none => Except.error SimError.indexError

/-- Python list write `xs[i] = v`.  In the source this is only reached at an
index that was just read successfully with `pyGet`, so the out-of-range case
(where Python would raise) leaves the list unchanged. -/
def pySet {α : Type} (xs : List α) (i : ℤ) (v : α) : List α :=
  match pyIdx xs.length i with
  | some n => xs.set n v
  | none => xs

/-- A row of the `simulation_runs` table: `grid_values DOUBLE PRECISION[]`,
`calls INTEGER[] NULL`, `current_index INTEGER`. -/
structure RunRow where
  gridValues : List ℚ
  calls : Option (List (Option ℤ))
  currentIndex : ℤ
  deriving DecidableEq, Repr

/-- A row of the `simulation_calls` table, in insertion order. -/
structure CallRecord where
  simulationId : SimId
  calledAt : ℕ
  carbonIntensity : ℚ
  idx : ℤ
  deriving DecidableEq, Repr

/-- The persistent state the simulation module reads and writes:
the `simulation_runs` table (keyed by `simulation_id`) and the append-only
`simulation_calls` table. -/
structure Store where
  runs : List (SimId × RunRow)
  callRecords : List CallRecord
  deriving DecidableEq, Repr

/-- The empty database. -/
def emptyStore : Store := { runs := [], callRecords := [] }

/-- The query `SELECT ... WHERE simulation_id = %s` on the runs table. -/
def lookupRun (simId : SimId) : List (SimId × RunRow) → Option RunRow
  | [] => none
  | (k, v) :: rest => if k = simId then some v else lookupRun simId rest

/-- The statement `UPDATE simulation_runs SET current_index = %s, calls = %s
WHERE simulation_id = %s`: rewrites only those two columns of the matching
row. -/
def updateRunState (simId : SimId) (newIndex : ℤ) (newCalls : List (Option ℤ))
    (runs : List (SimId × RunRow)) : List (SimId × RunRow) :=
  runs.map fun p =>
    if p.1 = simId then (p.1, { p.2 with currentIndex := newIndex, calls := some newCalls })
    else p

/-- Embeds `SimulationStore._normalize_calls`: pad/truncate the stored `calls` array
to exactly `length` entries (`None` column becomes all-`none`).  The Python
`int(value)` applied to each stored entry is the identity on `ℤ`. -/
def _normalize_calls (calls : Option (List (Option ℤ))) (length : ℕ) : List (Option ℤ) :=
  match calls with
  | none => List.replicate length none
  | some cs => cs.take length ++ List.replicate (length - cs.length) none

/-- One loop iteration of `SimulationStore._split_values_and_calls`: a bare
number contributes `(float(value), None)`; a tuple must have exactly two
cells `(value, calls)` (otherwise `ValueError`), `float(value)` requires a
number (a `None` there would be a `TypeError`), and `calls` is `None` or
`int(calls)`. -/
def splitEntry : SimEntry → Except SimError (ℚ × Option ℤ)
  | SimEntry.scalar q => Except.ok (q, none)
  | SimEntry.tupleEntry [SimCell.num q, SimCell.noneVal] => Except.ok (q, none)
  | SimEntry.tupleEntry [SimCell.num q, SimCell.num c] => Except.ok (q, some (pyInt c))
  | SimEntry.tupleEntry [SimCell.noneVal, _] => Except.error SimError.typeError
  | SimEntry.tupleEntry _ => Except.error SimError.invalidInput

/-- Embeds `SimulationStore._split_values_and_calls`: split the payload into the
parallel `grid_values` and `call_counts` lists, failing at the first bad
entry. -/
def _split_values_and_calls : List SimEntry → Except SimError (List ℚ × List (Option ℤ))
  | [] => Except.ok ([], [])
  | e :: rest =>
    match splitEntry e with
    | Except.error err => Except.error err
    | Except.ok (v, c) =>
      match _split_values_and_calls rest with
      | Except.error err => Except.error err
      | Except.ok (gv, cc) => Except.ok (v :: gv, c :: cc)

/-- The test `isinstance(entry, (list, tuple))` in the payload validator. -/
def isPair : SimEntry → Bool
  | SimEntry.scalar _ => false
  | SimEntry.tupleEntry _ => true

/-- Python `len(entry)` — only ever applied to tuple entries in the validator. -/
def entryLen : SimEntry → ℕ
  | SimEntry.scalar _ => 0
  | SimEntry.tupleEntry cells => cells.length

/-- Embeds `SimulationCreateRequest._validate_uniform_carbon_values` (app.py):
reject payloads mixing bare numbers with pairs, and, when pairs are present,
any entry whose length is not exactly 2. -/
def _validate_uniform_carbon_values (values : List SimEntry) : Except SimError Unit :=
  if values.isEmpty then Except.ok ()
  else
    let has_pairs := values.any isPair
    let has_scalars := values.any fun e => !(isPair e)
    if has_pairs && has_scalars then Except.error SimError.invalidInput
    else if has_pairs && values.any (fun e => entryLen e != 2) then
      Except.error SimError.invalidInput
    else Except.ok ()

/-- The view `SimulationStore._fetch_run` returns: `float`-converted values,
normalized calls, `int`-converted index. -/
structure RunView where
  values : List ℚ
  calls : List (Option ℤ)
  currentIndex : ℤ
  deriving DecidableEq, Repr

/-- Embeds `SimulationStore._fetch_run`: select the run row (optionally
`FOR UPDATE`), raising `SimulationNotFoundError` when absent, normalizing
the calls array to the length of `grid_values`. -/
def _fetch_run (simId : SimId) (st : Store) : Except SimError RunView :=
  match lookupRun simId st.runs with
  | none => Except.error SimError.notFound
  | some row =>
    Except.ok
      { values := row.gridValues
        calls := _normalize_calls row.calls row.gridValues.length
        currentIndex := row.currentIndex }

/-- Embeds `SimulationStore.create`: validate the payload (empty and malformed
entries raise `ValueError` before any SQL runs), then, in one transaction,
insert the run row with `current_index = 0` and the first call record
(`idx = 0`, `carbon_intensity = grid_values[0]`, `called_at = now`).
A duplicate `simulation_id` hits the primary key and rolls back. -/
def create (now : ℕ) (newId : SimId) (values : List SimEntry) (st : Store) :
    Except SimError SimId × Store × List TxEvent :=
  if values.isEmpty then (Except.error SimError.invalidInput, st, [])
  else
    match _split_values_and_calls values with
    | Except.error e => (Except.error e, st, [])
    | Except.ok (grid_values, call_counts) =>
      if (lookupRun newId st.runs).isSome then
        (Except.error SimError.uniqueViolation, st, [TxEvent.exec, TxEvent.rollback])
      else
        match pyGet grid_values 0 with
        | Except.error e => (Except.error e, st, [TxEvent.exec, TxEvent.rollback])
        | Except.ok v0 =>
          (Except.ok newId,
            { runs := st.runs ++
                [(newId, { gridValues := grid_values, calls := some call_counts,
                           currentIndex := 0 })]
              callRecords := st.callRecords ++
                [{ simulationId := newId, calledAt := now, carbonIntensity := v0, idx := 0 }] },
            [TxEvent.exec, TxEvent.exec, TxEvent.commit])

/-- The threshold bookkeeping inside `SimulationStore.current_value`:
given the normalized calls list and the current index, return the updated
calls list and the `should_advance` flag. -/
def decrementCalls (calls : List (Option ℤ)) (current_index : ℤ) (valuesLen : ℕ)
    (remaining_calls : Option ℤ) : List (Option ℤ) × Bool :=
  match remaining_calls with
  | some r =>
    if r ≥ 0 then
      let new_remaining := r - 1
      let calls1 := pySet calls current_index (some new_remaining)
      if new_remaining ≤ 0 ∧ current_index + 1 < (valuesLen : ℤ) then (calls1, true)
      else if new_remaining ≤ 0 then (pySet calls1 current_index (some (-1)), false)
      else (calls1, false)
    else (calls, false)
  | none => (calls, false)

/-- Embeds `SimulationStore.current_value`: fetch the run `FOR UPDATE`; if
`current_index >= len(values)` return `values[current_index]` without
committing (that read always raises `IndexError`, rolled back by the
`except` block); otherwise read the current value, apply the threshold
decrement, always `UPDATE` the row, insert a call record for the new index
when auto-advancing, commit, and return the pre-advance value.  Any
exception rolls the transaction back and re-raises. -/
def current_value (now : ℕ) (simId : SimId) (st : Store) :
    Except SimError ℚ × Store × List TxEvent :=
  match _fetch_run simId st with
  | Except.error e => (Except.error e, st, [TxEvent.exec, TxEvent.rollback])
  | Except.ok run =>
    let values := run.values
    let calls := run.calls
    let current_index := run.currentIndex
    if current_index ≥ (values.length : ℤ) then
      match pyGet values current_index with
      | Except.ok v => (Except.ok v, st, [TxEvent.exec])
      | Except.error e => (Except.error e, st, [TxEvent.exec, TxEvent.rollback])
    else
      match pyGet values current_index with
      | Except.error e => (Except.error e, st, [TxEvent.exec, TxEvent.rollback])
      | Except.ok cur =>
        match pyGet calls current_index with
        | Except.error e => (Except.error e, st, [TxEvent.exec, TxEvent.rollback])
        | Except.ok remaining_calls =>
          let step := decrementCalls calls current_index values.length remaining_calls
          let calls2 := step.1
          let should_advance := step.2
          let new_index := if should_advance then current_index + 1 else current_index
          if should_advance then
            match pyGet values new_index with
            | Except.error e =>
              (Except.error e, st, [TxEvent.exec, TxEvent.exec, TxEvent.rollback])
            | Except.ok next_value =>
              (Except.ok cur,
                { runs := updateRunState simId new_index calls2 st.runs
                  callRecords := st.callRecords ++
                    [{ simulationId := simId, calledAt := now,
                       carbonIntensity := next_value, idx := new_index }] },
                [TxEvent.exec, TxEvent.exec, TxEvent.exec, TxEvent.commit])
          else
            (Except.ok cur,
              { runs := updateRunState simId new_index calls2 st.runs
                callRecords := st.callRecords },
              [TxEvent.exec, TxEvent.exec, TxEvent.commit])

/-- Embeds `SimulationStore.advance`: fetch the run `FOR UPDATE`; when
`current_index + 1` is past the end, return `values[next_index - 1]` — note
this early return leaves the transaction opened by the select neither
committed nor rolled back; otherwise update the row to the next index
(rewriting `calls` with its normalized form), insert a call record at the
new index, commit, and return the new value. -/
def advance (now : ℕ) (simId : SimId) (st : Store) :
    Except SimError ℚ × Store × List TxEvent :=
  match _fetch_run simId st with
  | Except.error e => (Except.error e, st, [TxEvent.exec, TxEvent.rollback])
  | Except.ok run =>
    let next_index := run.currentIndex + 1
    if next_index ≥ (run.values.length : ℤ) then
      match pyGet run.values (next_index - 1) with
      | Except.ok v => (Except.ok v, st, [TxEvent.exec])
      | Except.error e => (Except.error e, st, [TxEvent.exec, TxEvent.rollback])
    else
      match pyGet run.values next_index with
      | Except.error e => (Except.error e, st, [TxEvent.exec, TxEvent.rollback])
      | Except.ok next_value =>
        (Except.ok next_value,
          { runs := updateRunState simId next_index run.calls st.runs
            callRecords := st.callRecords ++
              [{ simulationId := simId, calledAt := now,
                 carbonIntensity := next_value, idx := next_index }] },
          [TxEvent.exec, TxEvent.exec, TxEvent.exec, TxEvent.commit])

/-- One element of the `stats` response:
`{provider: simulation_id, time, carbon_intensity, estimation: True}`
(the ISO rendering of `called_at` is modelled by the timestamp itself). -/
structure StatsEntry where
  provider : SimId
  time : ℕ
  carbon_intensity : ℚ
  estimation : Bool
  deriving DecidableEq, Repr

/-- Stable insertion of a record into a list sorted by `called_at`. -/
def insertByTime (r : CallRecord) : List CallRecord → List CallRecord
  | [] => [r]
  | x :: xs => if r.calledAt ≤ x.calledAt then r :: x :: xs else x :: insertByTime r xs

/-- The clause `ORDER BY called_at` modelled as a stable insertion sort. -/
def sortByTime : List CallRecord → List CallRecord
  | [] => []
  | x :: xs => insertByTime x (sortByTime xs)

/-- The call records of one run, in insertion order. -/
def recordsFor (simId : SimId) (st : Store) : List CallRecord :=
  st.callRecords.filter fun c => c.simulationId = simId

/-- Embeds `SimulationStore.stats`: fetch the run (raising `SimulationNotFoundError`
outside any `try`, so nothing is rolled back), select the run's call records
ordered by `called_at`, and render each one.  No commit is issued. -/
def stats (simId : SimId) (st : Store) :
    Except SimError (List StatsEntry) × Store × List TxEvent :=
  match _fetch_run simId st with
  | Except.error e => (Except.error e, st, [TxEvent.exec])
  | Except.ok _ =>
    (Except.ok ((sortByTime (recordsFor simId st)).map fun c =>
        { provider := simId, time := c.calledAt,
          carbon_intensity := c.carbonIntensity, estimation := true }),
      st, [TxEvent.exec, TxEvent.exec])

/-- The `POST /simulation` creation path (app.py `create_simulation`):
pydantic enforces `min_length=1` and runs
`_validate_uniform_carbon_values`; only then does `SimulationStore.create`
run against the database. -/
def create_simulation (now : ℕ) (newId : SimId) (carbon_values : List SimEntry)
    (st : Store) : Except SimError SimId × Store × List TxEvent :=
  if carbon_values.length < 1 then (Except.error SimError.invalidInput, st, [])
  else
    match _validate_uniform_carbon_values carbon_values with
    | Except.error e => (Except.error e, st, [])
    | Except.ok _ => create now newId carbon_values st

/-- A populated store used to exercise the NotFound paths. -/
def c8Store : Store :=
  { runs := [("a", { gridValues := [2, 4], calls := some [none, none], currentIndex := 0 })]
    callRecords := [{ simulationId := "a", calledAt := 0, carbonIntensity := 2, idx := 0 }] }

/-- Witness for C10: a stored row with a too-short calls array. -/
def c10Store : Store :=
  { runs := [("a", { gridValues := [7, 8, 9], calls := some [some 1], currentIndex := 2 })]
    callRecords := [] }

/-- The payload `[1, 2, 3]` of bare numbers. -/
def c4Payload : List SimEntry := [SimEntry.scalar 1, SimEntry.scalar 2, SimEntry.scalar 3]

/-- The store after `create([1,2,3])`. -/
def c4St0 : Store := (create_simulation 0 "r" c4Payload emptyStore).2.1

/-- The store after the first manual advance. -/
def c4StA1 : Store := (advance 4 "r" c4St0).2.1

/-- The store after the second manual advance. -/
def c4StA2 : Store := (advance 5 "r" c4StA1).2.1

/-- A single-value run whose terminal slot still carries threshold 2. -/
def c3Store : Store :=
  { runs := [("s", { gridValues := [5], calls := some [some 2], currentIndex := 0 })]
    callRecords := [{ simulationId := "s", calledAt := 0, carbonIntensity := 5, idx := 0 }] }

/-- How a terminal-state read updates the (normalized) thresholds array at
the cursor: a missing or negative threshold is left alone, a threshold of 0
or 1 is pinned to the exhausted sentinel −1, and a threshold ≥ 2 is
decremented by one. -/
def terminalCalls (nc : List (Option ℤ)) (i : ℕ) : List (Option ℤ) :=
  match nc.getD i none with
  | none => nc
  | some r =>
    if r < 0 then nc
    else if r ≤ 1 then nc.set i (some (-1))
    else nc.set i (some (r - 1))

/-- A one-value run used to exercise the terminal `advance` path. -/
def c9Store : Store :=
  { runs := [("s", { gridValues := [1], calls := some [none], currentIndex := 0 })]
    callRecords := [{ simulationId := "s", calledAt := 0, carbonIntensity := 1, idx := 0 }] }

/-- A two-value run at cursor 0, for the advancing branch of C7. -/
def c7Store : Store :=
  { runs := [("t", { gridValues := [3, 4], calls := some [none, none], currentIndex := 0 })]
    callRecords := [{ simulationId := "t", calledAt := 0, carbonIntensity := 3, idx := 0 }] }

/-- Iterate `current_value` a given number of times, threading the store and
collecting the returned values; `none` once a call fails. -/
def iterateReads (now : ℕ) (simId : SimId) : ℕ → Store → Option (List ℚ × Store)
  | 0, st => some ([], st)
  | n + 1, st =>
    match current_value now simId st with
    | (Except.ok v, st1, _) =>
      match iterateReads now simId n st1 with
      | some (vs, st2) => some (v :: vs, st2)
      | none => none
    | (Except.error _, _, _) => none

/-- A run whose first slot has threshold 0, next slot has none. -/
def c1zStore : Store :=
  { runs := [("s", { gridValues := [5, 10], calls := some [some 0, none], currentIndex := 0 })]
    callRecords := [] }

/-- The payload `[(5, 2), (10, 1)]`. -/
def c1Payload : List SimEntry :=
  [SimEntry.tupleEntry [SimCell.num 5, SimCell.num 2],
   SimEntry.tupleEntry [SimCell.num 10, SimCell.num 1]]

/-- The store after creating the `[(5, 2), (10, 1)]` run. -/
def c1St0 : Store := (create_simulation 0 "r" c1Payload emptyStore).2.1

/-- The store after the first read. -/
def c1St1 : Store := (current_value 1 "r" c1St0).2.1

/-- The store after the second read. -/
def c1St2 : Store := (current_value 2 "r" c1St1).2.1

/-- A run with threshold 3 on the first of two values. -/
def c1wStore : Store :=
  { runs := [("g", { gridValues := [7, 9], calls := some [some 3, none], currentIndex := 0 })]
    callRecords := [] }

/-- One engine invocation against the store. -/
inductive SimOp
  | createOp (newId : SimId) (values : List SimEntry)
  | currentValueOp (simId : SimId)
  | advanceOp (simId : SimId)

/-- Run one operation at time `t`, keeping the store it leaves behind
(committed on success, rolled back — unchanged — on failure). -/
def applyOp (t : ℕ) (op : SimOp) (st : Store) : Store :=
  match op with
  | SimOp.createOp newId values => (create_simulation t newId values st).2.1
  | SimOp.currentValueOp simId => (current_value t simId st).2.1
  | SimOp.advanceOp simId => (advance t simId st).2.1

/-- Run a sequence of operations with a strictly increasing clock. -/
def execOps : List SimOp → ℕ → Store → Store
  | [], _, st => st
  | op :: rest, t, st => execOps rest (t + 1) (applyOp t op st)

/-- The state invariant maintained by every engine operation: call-record
timestamps are below the clock and strictly increasing in insertion order,
every record belongs to an existing run, and each run has a non-empty track,
an in-range cursor, and exactly one call record per cursor position `0 ..
cursor`, in insertion order. -/
structure StoreInv (t : ℕ) (st : Store) : Prop where
  times : ∀ r ∈ st.callRecords, r.calledAt < t
  ordered : st.callRecords.Pairwise fun a b => a.calledAt < b.calledAt
  owned : ∀ r ∈ st.callRecords, (lookupRun r.simulationId st.runs).isSome = true
  runsOk : ∀ simId row, lookupRun simId st.runs = some row →
    1 ≤ row.gridValues.length ∧ 0 ≤ row.currentIndex ∧
    row.currentIndex < (row.gridValues.length : ℤ) ∧
    (recordsFor simId st).map CallRecord.idx =
      (List.range (row.currentIndex.toNat + 1)).map Int.ofNat

/-- A concrete operation sequence: create `[(5, 2), (10, 1)]`, then two
reads (the second auto-advances the cursor to 1). -/
def c5Ops : List SimOp :=
  [SimOp.createOp "r" c1Payload, SimOp.currentValueOp "r", SimOp.currentValueOp "r"]

/-! ## Theorems -/

/-! ## Basic lemmas about the list primitives -/

theorem pyIdx_coe_lt {len i : ℕ} (h : i < len) : pyIdx len (i : ℤ) = some i := by
  unfold pyIdx
  rw [if_pos ⟨Int.ofNat_nonneg i, by exact_mod_cast h⟩]
  simp

theorem pyIdx_none_of_ge {len : ℕ} {i : ℤ} (h : (len : ℤ) ≤ i) : pyIdx len i = none := by
  unfold pyIdx
  rw [if_neg, if_neg]
  · rintro ⟨h1, h2⟩
    omega
  · rintro ⟨h1, h2⟩
    omega

theorem pyGet_coe_lt {α : Type} (xs : List α) (i : ℕ) (h : i < xs.length) :
    pyGet xs (i : ℤ) = Except.ok xs[i] := by
  unfold pyGet
  rw [pyIdx_coe_lt h]
  simp [List.get?_eq_getElem?, List.getElem?_eq_getElem h]

theorem pyGet_err_of_ge {α : Type} (xs : List α) (i : ℤ) (h : (xs.length : ℤ) ≤ i) :
    pyGet xs i = Except.error SimError.indexError := by
  unfold pyGet
  rw [pyIdx_none_of_ge h]

theorem pySet_coe_lt {α : Type} (xs : List α) (i : ℕ) (v : α) (h : i < xs.length) :
    pySet xs (i : ℤ) v = xs.set i v := by
  unfold pySet
  rw [pyIdx_coe_lt h]

theorem normalize_calls_length (calls : Option (List (Option ℤ))) (length : ℕ) :
    (_normalize_calls calls length).length = length := by
  unfold _normalize_calls
  match calls with
  | none => simp
  | some cs => simp; omega

theorem normalize_calls_self {cs : List (Option ℤ)} {n : ℕ} (h : cs.length = n) :
    _normalize_calls (some cs) n = cs := by
  unfold _normalize_calls
  rw [← h]
  simp

/-! ## Lemmas about the runs table -/

theorem lookupRun_cons (simId : SimId) (p : SimId × RunRow) (rest : List (SimId × RunRow)) :
    lookupRun simId (p :: rest) =
      if p.1 = simId then some p.2 else lookupRun simId rest := rfl

theorem updateRunState_cons (simId : SimId) (ni : ℤ) (nc : List (Option ℤ))
    (p : SimId × RunRow) (rest : List (SimId × RunRow)) :
    updateRunState simId ni nc (p :: rest) =
      (if p.1 = simId then (p.1, { p.2 with currentIndex := ni, calls := some nc }) else p) ::
        updateRunState simId ni nc rest := by
  unfold updateRunState
  rw [List.map_cons]

theorem lookupRun_append_some {simId : SimId} {l l' : List (SimId × RunRow)} {r : RunRow}
    (h : lookupRun simId l = some r) : lookupRun simId (l ++ l') = some r := by
  induction l with
  | nil => simp [lookupRun] at h
  | cons p rest ih =>
    rw [List.cons_append, lookupRun_cons]
    rw [lookupRun_cons] at h
    by_cases hp : p.1 = simId
    · rw [if_pos hp] at h ⊢
      exact h
    · rw [if_neg hp] at h ⊢
      exact ih h

theorem lookupRun_append_none {simId : SimId} {l l' : List (SimId × RunRow)}
    (h : lookupRun simId l = none) : lookupRun simId (l ++ l') = lookupRun simId l' := by
  induction l with
  | nil => simp
  | cons p rest ih =>
    rw [List.cons_append, lookupRun_cons]
    rw [lookupRun_cons] at h
    by_cases hp : p.1 = simId
    · rw [if_pos hp] at h
      exact absurd h (by simp)
    · rw [if_neg hp] at h ⊢
      exact ih h

theorem lookupRun_updateRunState_self (simId : SimId) (ni : ℤ) (nc : List (Option ℤ))
    (runs : List (SimId × RunRow)) :
    lookupRun simId (updateRunState simId ni nc runs) =
      (lookupRun simId runs).map fun r => { r with currentIndex := ni, calls := some nc } := by
  induction runs with
  | nil => simp [lookupRun, updateRunState]
  | cons p rest ih =>
    rw [updateRunState_cons, lookupRun_cons, lookupRun_cons]
    by_cases hp : p.1 = simId
    · rw [if_pos hp]
      simp only [if_pos hp]
      simp
    · rw [if_neg hp]
      simp only [if_neg hp]
      exact ih

theorem lookupRun_updateRunState_ne {simId other : SimId} (hne : other ≠ simId)
    (ni : ℤ) (nc : List (Option ℤ)) (runs : List (SimId × RunRow)) :
    lookupRun other (updateRunState simId ni nc runs) = lookupRun other runs := by
  induction runs with
  | nil => simp [lookupRun, updateRunState]
  | cons p rest ih =>
    rw [updateRunState_cons, lookupRun_cons, lookupRun_cons]
    by_cases hp : p.1 = simId
    · rw [if_pos hp]
      have hno : ¬(p.1 = other) := fun h => hne (by rw [← h, hp])
      simp only [if_neg hno]
      exact ih
    · rw [if_neg hp]
      by_cases ho : p.1 = other
      · simp only [if_pos ho]
      · simp only [if_neg ho]
        exact ih

theorem updateRunState_keys (simId : SimId) (ni : ℤ) (nc : List (Option ℤ))
    (runs : List (SimId × RunRow)) :
    (updateRunState simId ni nc runs).map Prod.fst = runs.map Prod.fst := by
  unfold updateRunState
  rw [List.map_map]
  apply List.map_congr_left
  intro p _
  by_cases hp : p.1 = simId <;> simp [hp]

/-! ## Sorting and splitting lemmas -/

theorem insertByTime_of_le {r : CallRecord} {l : List CallRecord}
    (h : ∀ x ∈ l, r.calledAt ≤ x.calledAt) : insertByTime r l = r :: l := by
  cases l with
  | nil => rfl
  | cons x xs =>
    unfold insertByTime
    rw [if_pos (h x (by simp))]

theorem sortByTime_eq_self {l : List CallRecord}
    (h : l.Pairwise fun a b => a.calledAt ≤ b.calledAt) : sortByTime l = l := by
  induction l with
  | nil => rfl
  | cons x xs ih =>
    rw [List.pairwise_cons] at h
    unfold sortByTime
    rw [ih h.2, insertByTime_of_le h.1]

theorem insertByTime_length (r : CallRecord) (l : List CallRecord) :
    (insertByTime r l).length = l.length + 1 := by
  induction l with
  | nil => rfl
  | cons x xs ih =>
    unfold insertByTime
    split
    · simp
    · simp [ih]

theorem sortByTime_length (l : List CallRecord) : (sortByTime l).length = l.length := by
  induction l with
  | nil => rfl
  | cons x xs ih =>
    unfold sortByTime
    rw [insertByTime_length, ih]
    simp

theorem split_lengths :
    ∀ {values : List SimEntry} {gv : List ℚ} {cc : List (Option ℤ)},
      _split_values_and_calls values = Except.ok (gv, cc) →
      gv.length = values.length ∧ cc.length = values.length := by
  intro values
  induction values with
  | nil =>
    intro gv cc h
    unfold _split_values_and_calls at h
    injection h with h
    cases h
    exact ⟨rfl, rfl⟩
  | cons e rest ih =>
    intro gv cc h
    unfold _split_values_and_calls at h
    split at h
    · exact absurd h (by simp)
    · split at h
      · exact absurd h (by simp)
      · rename_i v c _ gv' cc' hrest
        injection h with h
        obtain ⟨h1, h2⟩ := ih hrest
        cases h
        simp [h1, h2]

/-! ## Case analysis of the threshold bookkeeping -/

theorem decrementCalls_none (calls : List (Option ℤ)) (i : ℤ) (n : ℕ) :
    decrementCalls calls i n none = (calls, false) := rfl

theorem decrementCalls_neg (calls : List (Option ℤ)) (i : ℤ) (n : ℕ) {r : ℤ} (h : r < 0) :
    decrementCalls calls i n (some r) = (calls, false) := by
  simp only [decrementCalls]
  rw [if_neg (by omega : ¬r ≥ 0)]

theorem decrementCalls_pos (calls : List (Option ℤ)) (i : ℤ) (n : ℕ) {r : ℤ} (h : 2 ≤ r) :
    decrementCalls calls i n (some r) = (pySet calls i (some (r - 1)), false) := by
  simp only [decrementCalls]
  rw [if_pos (by omega : r ≥ 0)]
  rw [if_neg (by omega : ¬(r - 1 ≤ 0 ∧ i + 1 < (n : ℤ))), if_neg (by omega : ¬r - 1 ≤ 0)]

theorem decrementCalls_adv (calls : List (Option ℤ)) (i : ℤ) (n : ℕ) {r : ℤ}
    (h0 : 0 ≤ r) (h1 : r ≤ 1) (hnext : i + 1 < (n : ℤ)) :
    decrementCalls calls i n (some r) = (pySet calls i (some (r - 1)), true) := by
  simp only [decrementCalls]
  rw [if_pos (by omega : r ≥ 0)]
  rw [if_pos (⟨by omega, hnext⟩ : r - 1 ≤ 0 ∧ i + 1 < (n : ℤ))]

theorem decrementCalls_pin (calls : List (Option ℤ)) (i : ℤ) (n : ℕ) {r : ℤ}
    (h0 : 0 ≤ r) (h1 : r ≤ 1) (hnext : ¬(i + 1 < (n : ℤ))) :
    decrementCalls calls i n (some r) =
      (pySet (pySet calls i (some (r - 1))) i (some (-1)), false) := by
  simp only [decrementCalls]
  rw [if_pos (by omega : r ≥ 0)]
  rw [if_neg (fun hc => hnext hc.2), if_pos (by omega : r - 1 ≤ 0)]

theorem decrementCalls_advance_bound {calls : List (Option ℤ)} {i : ℤ} {n : ℕ}
    {rc : Option ℤ} (h : (decrementCalls calls i n rc).2 = true) : i + 1 < (n : ℤ) := by
  simp only [decrementCalls] at h
  split at h
  · split at h
    · split at h
      · rename_i hcond
        exact hcond.2
      · split at h
        · simp at h
        · simp at h
    · simp at h
  · simp at h

theorem pyGet_coe_getD {α : Type} (xs : List α) (i : ℕ) (d : α) (h : i < xs.length) :
    pyGet xs (i : ℤ) = Except.ok (xs.getD i d) := by
  rw [pyGet_coe_lt xs i h]
  congr 1
  rw [List.getD_eq_getElem?_getD, List.getElem?_eq_getElem h]
  rfl

theorem decrementCalls_length (calls : List (Option ℤ)) (i : ℤ) (n : ℕ) (rc : Option ℤ) :
    (decrementCalls calls i n rc).1.length = calls.length := by
  simp only [decrementCalls, pySet]
  split
  · split
    · split
      · split <;> simp
      · split
        · split
          · split <;> simp
          · split <;> simp
        · split <;> simp
    · rfl
  · rfl

/-! ## Shape lemmas for the store operations -/

theorem fetch_run_some {simId : SimId} {st : Store} {row : RunRow}
    (hlook : lookupRun simId st.runs = some row) :
    _fetch_run simId st = Except.ok
      { values := row.gridValues
        calls := _normalize_calls row.calls row.gridValues.length
        currentIndex := row.currentIndex } := by
  unfold _fetch_run
  rw [hlook]

theorem fetch_run_none {simId : SimId} {st : Store}
    (hlook : lookupRun simId st.runs = none) :
    _fetch_run simId st = Except.error SimError.notFound := by
  unfold _fetch_run
  rw [hlook]

theorem current_value_not_found {simId : SimId} {st : Store} (now : ℕ)
    (hlook : lookupRun simId st.runs = none) :
    current_value now simId st =
      (Except.error SimError.notFound, st, [TxEvent.exec, TxEvent.rollback]) := by
  unfold current_value
  rw [fetch_run_none hlook]

theorem advance_not_found {simId : SimId} {st : Store} (now : ℕ)
    (hlook : lookupRun simId st.runs = none) :
    advance now simId st =
      (Except.error SimError.notFound, st, [TxEvent.exec, TxEvent.rollback]) := by
  unfold advance
  rw [fetch_run_none hlook]

theorem stats_not_found {simId : SimId} {st : Store}
    (hlook : lookupRun simId st.runs = none) :
    stats simId st = (Except.error SimError.notFound, st, [TxEvent.exec]) := by
  unfold stats
  rw [fetch_run_none hlook]

theorem current_value_found_noadv (now : ℕ) (simId : SimId) (st : Store) (row : RunRow)
    (i : ℕ) (hlook : lookupRun simId st.runs = some row)
    (hidx : row.currentIndex = (i : ℤ)) (hlen : i < row.gridValues.length)
    (hsa : (decrementCalls (_normalize_calls row.calls row.gridValues.length) (i : ℤ)
        row.gridValues.length
        ((_normalize_calls row.calls row.gridValues.length).getD i none)).2 = false) :
    current_value now simId st =
      (Except.ok (row.gridValues.getD i 0),
        { runs := updateRunState simId (i : ℤ)
            (decrementCalls (_normalize_calls row.calls row.gridValues.length) (i : ℤ)
              row.gridValues.length
              ((_normalize_calls row.calls row.gridValues.length).getD i none)).1 st.runs
          callRecords := st.callRecords },
        [TxEvent.exec, TxEvent.exec, TxEvent.commit]) := by
  unfold current_value
  rw [fetch_run_some hlook]
  dsimp only
  rw [hidx]
  rw [if_neg (by omega : ¬((i : ℤ) ≥ (row.gridValues.length : ℤ)))]
  rw [pyGet_coe_getD row.gridValues i 0 hlen]
  rw [pyGet_coe_getD (_normalize_calls row.calls row.gridValues.length) i none
    (by rw [normalize_calls_length]; exact hlen)]
  dsimp only
  rw [hsa]
  simp

theorem current_value_found_adv (now : ℕ) (simId : SimId) (st : Store) (row : RunRow)
    (i : ℕ) (hlook : lookupRun simId st.runs = some row)
    (hidx : row.currentIndex = (i : ℤ)) (hlen : i < row.gridValues.length)
    (hsa : (decrementCalls (_normalize_calls row.calls row.gridValues.length) (i : ℤ)
        row.gridValues.length
        ((_normalize_calls row.calls row.gridValues.length).getD i none)).2 = true) :
    current_value now simId st =
      (Except.ok (row.gridValues.getD i 0),
        { runs := updateRunState simId ((i : ℤ) + 1)
            (decrementCalls (_normalize_calls row.calls row.gridValues.length) (i : ℤ)
              row.gridValues.length
              ((_normalize_calls row.calls row.gridValues.length).getD i none)).1 st.runs
          callRecords := st.callRecords ++
            [{ simulationId := simId, calledAt := now,
               carbonIntensity := row.gridValues.getD (i + 1) 0, idx := (i : ℤ) + 1 }] },
        [TxEvent.exec, TxEvent.exec, TxEvent.exec, TxEvent.commit]) := by
  have hnext : i + 1 < row.gridValues.length := by
    have := decrementCalls_advance_bound hsa
    omega
  unfold current_value
  rw [fetch_run_some hlook]
  dsimp only
  rw [hidx]
  rw [if_neg (by omega : ¬((i : ℤ) ≥ (row.gridValues.length : ℤ)))]
  rw [pyGet_coe_getD row.gridValues i 0 hlen]
  rw [pyGet_coe_getD (_normalize_calls row.calls row.gridValues.length) i none
    (by rw [normalize_calls_length]; exact hlen)]
  dsimp only
  rw [hsa]
  have hcast : (i : ℤ) + 1 = ((i + 1 : ℕ) : ℤ) := by push_cast; ring
  rw [if_pos rfl, if_pos rfl, hcast, pyGet_coe_getD row.gridValues (i + 1) 0 hnext]

theorem advance_found_terminal (now : ℕ) (simId : SimId) (st : Store) (row : RunRow)
    (i : ℕ) (hlook : lookupRun simId st.runs = some row)
    (hidx : row.currentIndex = (i : ℤ)) (hlen : i < row.gridValues.length)
    (hterm : ¬(i + 1 < row.gridValues.length)) :
    advance now simId st =
      (Except.ok (row.gridValues.getD i 0), st, [TxEvent.exec]) := by
  unfold advance
  rw [fetch_run_some hlook]
  dsimp only
  rw [hidx]
  rw [if_pos (by omega : (i : ℤ) + 1 ≥ (row.gridValues.length : ℤ))]
  have hcast : (i : ℤ) + 1 - 1 = ((i : ℕ) : ℤ) := by ring
  rw [hcast, pyGet_coe_getD row.gridValues i 0 hlen]

theorem advance_found_step (now : ℕ) (simId : SimId) (st : Store) (row : RunRow)
    (i : ℕ) (hlook : lookupRun simId st.runs = some row)
    (hidx : row.currentIndex = (i : ℤ)) (hstep : i + 1 < row.gridValues.length) :
    advance now simId st =
      (Except.ok (row.gridValues.getD (i + 1) 0),
        { runs := updateRunState simId ((i : ℤ) + 1)
            (_normalize_calls row.calls row.gridValues.length) st.runs
          callRecords := st.callRecords ++
            [{ simulationId := simId, calledAt := now,
               carbonIntensity := row.gridValues.getD (i + 1) 0, idx := (i : ℤ) + 1 }] },
        [TxEvent.exec, TxEvent.exec, TxEvent.exec, TxEvent.commit]) := by
  unfold advance
  rw [fetch_run_some hlook]
  dsimp only
  rw [hidx]
  rw [if_neg (by omega : ¬((i : ℤ) + 1 ≥ (row.gridValues.length : ℤ)))]
  have hcast : (i : ℤ) + 1 = ((i + 1 : ℕ) : ℤ) := by push_cast; ring
  rw [hcast, pyGet_coe_getD row.gridValues (i + 1) 0 hstep]

/-! ## Claim C8: NotFound atomicity -/

/-- Claim C8: for every run id absent from the store, `current_value`,
`advance`, and `stats` each fail with a `NotFound` error and mutate
nothing — the runs table and the call history are exactly as they were
before the call. -/
theorem notFound_atomicity (now now2 : ℕ) (simId : SimId) (st : Store)
    (hlook : lookupRun simId st.runs = none) :
    current_value now simId st =
      (Except.error SimError.notFound, st, [TxEvent.exec, TxEvent.rollback]) ∧
    advance now2 simId st =
      (Except.error SimError.notFound, st, [TxEvent.exec, TxEvent.rollback]) ∧
    stats simId st = (Except.error SimError.notFound, st, [TxEvent.exec]) :=
  ⟨current_value_not_found now hlook, advance_not_found now2 hlook,
    stats_not_found hlook⟩

/-- Witness for C8 at a fabricated id against a populated store. -/
theorem notFound_atomicity_witness :
    lookupRun "missing" c8Store.runs = none ∧
    (current_value 1 "missing" c8Store =
        (Except.error SimError.notFound, c8Store, [TxEvent.exec, TxEvent.rollback]) ∧
      advance 2 "missing" c8Store =
        (Except.error SimError.notFound, c8Store, [TxEvent.exec, TxEvent.rollback]) ∧
      stats "missing" c8Store = (Except.error SimError.notFound, c8Store, [TxEvent.exec])) :=
  ⟨by decide, notFound_atomicity 1 2 "missing" c8Store (by decide)⟩

/-! ## Claim C10: calls-array normalization in `_fetch_run` -/

/-- Claim C10: for every stored run row, `_fetch_run` returns a calls list
whose length equals the length of `grid_values` — a shorter stored array is
right-padded with `none`, a longer one is truncated, a missing (`NULL`)
array becomes all `none` — so reading `calls[current_index]` succeeds
whenever `0 ≤ current_index < len(values)`. -/
theorem fetch_run_normalizes (simId : SimId) (st : Store) (row : RunRow)
    (hlook : lookupRun simId st.runs = some row) :
    ∃ view : RunView, _fetch_run simId st = Except.ok view ∧
      view.values = row.gridValues ∧
      view.calls.length = view.values.length ∧
      (∀ cs, row.calls = some cs → cs.length ≤ row.gridValues.length →
        view.calls = cs ++ List.replicate (row.gridValues.length - cs.length) none) ∧
      (∀ cs, row.calls = some cs → row.gridValues.length ≤ cs.length →
        view.calls = cs.take row.gridValues.length) ∧
      (row.calls = none → view.calls = List.replicate row.gridValues.length none) ∧
      (∀ i : ℤ, 0 ≤ i → i < (view.values.length : ℤ) →
        pyGet view.calls i = Except.ok (view.calls.getD i.toNat none)) := by
  refine ⟨_, fetch_run_some hlook, rfl, ?_, ?_, ?_, ?_, ?_⟩
  · rw [normalize_calls_length]
  · intro cs hcs hle
    rw [hcs]
    unfold _normalize_calls
    dsimp only
    rw [List.take_of_length_le hle]
  · intro cs hcs hge
    rw [hcs]
    unfold _normalize_calls
    dsimp only
    have h0 : row.gridValues.length - cs.length = 0 := by omega
    rw [h0]
    simp
  · intro hnone
    rw [hnone]
    rfl
  · intro i h0 hlt
    have hi : i = ((i.toNat : ℕ) : ℤ) := by omega
    rw [hi]
    apply pyGet_coe_getD
    dsimp only at hlt ⊢
    have hlen := normalize_calls_length row.calls row.gridValues.length
    omega

/-- Witness for C10 at a row whose stored calls array is shorter than its
values, checking the padded read. -/
theorem fetch_run_normalizes_witness :
    lookupRun "a" c10Store.runs = some
      { gridValues := [7, 8, 9], calls := some [some 1], currentIndex := 2 } ∧
    ∃ view : RunView, _fetch_run "a" c10Store = Except.ok view ∧
      view.values = [7, 8, 9] ∧ view.calls.length = view.values.length ∧
      pyGet view.calls 2 = Except.ok (view.calls.getD 2 none) := by
  refine ⟨by decide, ?_⟩
  obtain ⟨view, h1, h2, h3, _, _, _, h7⟩ :=
    fetch_run_normalizes "a" c10Store
      { gridValues := [7, 8, 9], calls := some [some 1], currentIndex := 2 } (by decide)
  refine ⟨view, h1, by rw [h2], h3, ?_⟩
  have := h7 2 (by decide) (by rw [h2]; decide)
  simpa using this

/-! ## Claim C2: creation validation -/

/-- Claim C2: every creation payload that is empty, or mixes bare numbers
with pairs, or contains a pair whose length is not exactly 2, makes the
creation path (`min_length` plus `_validate_uniform_carbon_values`, ahead
of `SimulationStore.create`) fail with the invalid-input error, leaving
the store untouched and executing no SQL. -/
theorem create_validation_rejects (now : ℕ) (newId : SimId) (st : Store) :
    (create_simulation now newId [] st = (Except.error SimError.invalidInput, st, [])) ∧
    (∀ values : List SimEntry, (values.any isPair) = true →
      (values.any fun e => !(isPair e)) = true →
      create_simulation now newId values st = (Except.error SimError.invalidInput, st, [])) ∧
    (∀ values : List SimEntry, ∀ e ∈ values, isPair e = true → entryLen e ≠ 2 →
      create_simulation now newId values st = (Except.error SimError.invalidInput, st, [])) := by
  refine ⟨rfl, ?_, ?_⟩
  · intro values hp hs
    have hne : values ≠ [] := by
      intro h
      rw [h] at hp
      simp at hp
    unfold create_simulation
    rw [if_neg (by have hp0 := List.length_pos.mpr hne; omega : ¬values.length < 1)]
    unfold _validate_uniform_carbon_values
    rw [if_neg (by simp only [List.isEmpty_eq_true]; exact hne)]
    simp only [hp, hs, Bool.and_self, Bool.true_and]
    rfl
  · intro values e he hpair hlen
    have hp : values.any isPair = true := List.any_eq_true.mpr ⟨e, he, hpair⟩
    have hne : values ≠ [] := by
      intro h
      rw [h] at he
      exact absurd he (by simp)
    unfold create_simulation
    rw [if_neg (by have hp0 := List.length_pos.mpr hne; omega : ¬values.length < 1)]
    unfold _validate_uniform_carbon_values
    rw [if_neg (by simp only [List.isEmpty_eq_true]; exact hne)]
    by_cases hs : (values.any fun e => !(isPair e)) = true
    · simp only [hp, hs, Bool.and_self, Bool.true_and]
      rfl
    · rw [Bool.not_eq_true] at hs
      simp only [hp, hs, Bool.and_false, Bool.true_and, Bool.false_eq_true, if_false]
      have hany : (values.any fun x => entryLen x != 2) = true :=
        List.any_eq_true.mpr ⟨e, he, by simpa using hlen⟩
      simp only [hany, Bool.and_self]
      rfl

/-- Witness for C2: the three concrete payloads from the spec —
`create([])`, `create([1, (2,3)])` (mixed shapes) and `create([(1,2,3)])`
(wrong pair arity) — all fail with the invalid-input error. -/
theorem create_validation_rejects_witness :
    create_simulation 0 "r" [] emptyStore =
      (Except.error SimError.invalidInput, emptyStore, []) ∧
    create_simulation 0 "r"
        [SimEntry.scalar 1, SimEntry.tupleEntry [SimCell.num 2, SimCell.num 3]] emptyStore =
      (Except.error SimError.invalidInput, emptyStore, []) ∧
    create_simulation 0 "r"
        [SimEntry.tupleEntry [SimCell.num 1, SimCell.num 2, SimCell.num 3]] emptyStore =
      (Except.error SimError.invalidInput, emptyStore, []) :=
  ⟨(create_validation_rejects 0 "r" emptyStore).1,
    (create_validation_rejects 0 "r" emptyStore).2.1 _ (by decide) (by decide),
    (create_validation_rejects 0 "r" emptyStore).2.2 _
      (SimEntry.tupleEntry [SimCell.num 1, SimCell.num 2, SimCell.num 3]) (by decide)
      (by decide) (by decide)⟩

/-! ## Claim C4: no-threshold round trip -/

/-- Claim C4: after `create([1,2,3])` (no thresholds), three successive
`current_value` calls each return 1 and leave the store — in particular the
cursor — unchanged; three successive `advance` calls then return 2, 3 and 3,
the third being clamped at the terminal index with no mutation. -/
theorem no_threshold_round_trip :
    (create_simulation 0 "r" c4Payload emptyStore).1 = Except.ok "r" ∧
    lookupRun "r" c4St0.runs =
      some { gridValues := [1, 2, 3], calls := some [none, none, none], currentIndex := 0 } ∧
    (current_value 1 "r" c4St0).1 = Except.ok 1 ∧
    (current_value 1 "r" c4St0).2.1 = c4St0 ∧
    (current_value 2 "r" c4St0).1 = Except.ok 1 ∧
    (current_value 2 "r" c4St0).2.1 = c4St0 ∧
    (current_value 3 "r" c4St0).1 = Except.ok 1 ∧
    (current_value 3 "r" c4St0).2.1 = c4St0 ∧
    (advance 4 "r" c4St0).1 = Except.ok 2 ∧
    (advance 5 "r" c4StA1).1 = Except.ok 3 ∧
    (advance 6 "r" c4StA2).1 = Except.ok 3 ∧
    (advance 6 "r" c4StA2).2.1 = c4StA2 := by decide

/-! ## Claim C3 (corrected): terminal-state `current_value` -/

/-- Counterexample to claim C3 as stated: with the cursor at the last index
and a live threshold on the terminal slot, `current_value` returns the value
and leaves cursor and call history alone, but it decrements the thresholds
array from `[2]` to `[1]` — a side effect the claim excludes for every
threshold state of the terminal slot. -/
theorem terminal_read_mutates_thresholds :
    (current_value 1 "s" c3Store).1 = Except.ok 5 ∧
    lookupRun "s" ((current_value 1 "s" c3Store).2.1).runs =
      some { gridValues := [5], calls := some [some 1], currentIndex := 0 } ∧
    ((current_value 1 "s" c3Store).2.1).callRecords = c3Store.callRecords ∧
    (current_value 1 "s" c3Store).2.1 ≠ c3Store := by decide

/-- One terminal-state read, fully characterized: the value at the cursor is
returned, the cursor and the call history stay put, and the stored
thresholds array becomes `terminalCalls` of its normalized form. -/
theorem cv_terminal_step (now : ℕ) (simId : SimId) (st : Store) (row : RunRow) (i : ℕ)
    (hlook : lookupRun simId st.runs = some row)
    (hidx : row.currentIndex = (i : ℤ))
    (hterm : i + 1 = row.gridValues.length) :
    current_value now simId st =
      (Except.ok (row.gridValues.getD i 0),
        { runs := updateRunState simId (i : ℤ)
            (terminalCalls (_normalize_calls row.calls row.gridValues.length) i) st.runs
          callRecords := st.callRecords },
        [TxEvent.exec, TxEvent.exec, TxEvent.commit]) := by
  have hlen : i < row.gridValues.length := by omega
  have hnclen : i < (_normalize_calls row.calls row.gridValues.length).length := by
    rw [normalize_calls_length]
    exact hlen
  have hset : ∀ x : Option ℤ,
      pySet (_normalize_calls row.calls row.gridValues.length) (i : ℤ) x =
        (_normalize_calls row.calls row.gridValues.length).set i x :=
    fun x => pySet_coe_lt _ i x hnclen
  suffices hcalls :
      (decrementCalls (_normalize_calls row.calls row.gridValues.length) (i : ℤ)
          row.gridValues.length
          ((_normalize_calls row.calls row.gridValues.length).getD i none)).1 =
        terminalCalls (_normalize_calls row.calls row.gridValues.length) i ∧
      (decrementCalls (_normalize_calls row.calls row.gridValues.length) (i : ℤ)
          row.gridValues.length
          ((_normalize_calls row.calls row.gridValues.length).getD i none)).2 = false by
    rw [current_value_found_noadv now simId st row i hlook hidx hlen hcalls.2, hcalls.1]
  rcases hcase : (_normalize_calls row.calls row.gridValues.length).getD i none with _ | r
  · rw [decrementCalls_none]
    refine ⟨?_, rfl⟩
    simp only [terminalCalls, hcase]
  · by_cases hneg : r < 0
    · rw [decrementCalls_neg _ _ _ hneg]
      refine ⟨?_, rfl⟩
      simp only [terminalCalls, hcase]
      rw [if_pos hneg]
    · by_cases hsmall : r ≤ 1
      · rw [decrementCalls_pin _ _ _ (by omega) hsmall (by omega)]
        refine ⟨?_, rfl⟩
        dsimp only
        rw [hset (some (r - 1)),
          pySet_coe_lt _ i _ (by rw [List.length_set]; exact hnclen), List.set_set]
        simp only [terminalCalls, hcase]
        rw [if_neg hneg, if_pos hsmall]
      · rw [decrementCalls_pos _ _ _ (by omega : 2 ≤ r)]
        refine ⟨?_, rfl⟩
        dsimp only
        rw [hset (some (r - 1))]
        simp only [terminalCalls, hcase]
        rw [if_neg hneg, if_neg hsmall]

/-- Claim C3 (amended): for every run whose cursor is at the last index,
`current_value` returns `values[cursor]`, never changes the cursor or the
values and never appends call records, and repeated calls return the same
value; but the terminal slot's threshold is still consumed — it is
decremented when ≥ 2 and pinned to −1 when 0 or 1 (`terminalCalls`) — so
the thresholds array may change until the slot is missing, negative or
exhausted.  (The original claim's "the thresholds array is left exactly as
it was, regardless of the terminal slot's threshold state" is refuted by
`terminal_read_mutates_thresholds`.) -/
theorem terminal_current_value_amended (now now2 : ℕ) (simId : SimId) (st : Store)
    (row : RunRow) (i : ℕ) (hlook : lookupRun simId st.runs = some row)
    (hidx : row.currentIndex = (i : ℤ))
    (hterm : i + 1 = row.gridValues.length) :
    current_value now simId st =
      (Except.ok (row.gridValues.getD i 0),
        { runs := updateRunState simId (i : ℤ)
            (terminalCalls (_normalize_calls row.calls row.gridValues.length) i) st.runs
          callRecords := st.callRecords },
        [TxEvent.exec, TxEvent.exec, TxEvent.commit]) ∧
    ((current_value now simId st).2.1).callRecords = st.callRecords ∧
    lookupRun simId ((current_value now simId st).2.1).runs =
      some { row with
              currentIndex := (i : ℤ)
              calls := some (terminalCalls
                (_normalize_calls row.calls row.gridValues.length) i) } ∧
    (current_value now2 simId ((current_value now simId st).2.1)).1 =
      Except.ok (row.gridValues.getD i 0) := by
  have hmain := cv_terminal_step now simId st row i hlook hidx hterm
  have hlook2 : lookupRun simId ((current_value now simId st).2.1).runs =
      some { row with
              currentIndex := (i : ℤ)
              calls := some (terminalCalls
                (_normalize_calls row.calls row.gridValues.length) i) } := by
    rw [hmain]
    dsimp only
    rw [lookupRun_updateRunState_self, hlook]
    rfl
  refine ⟨hmain, by rw [hmain], hlook2, ?_⟩
  have hsecond := cv_terminal_step now2 simId ((current_value now simId st).2.1)
    { row with
       currentIndex := (i : ℤ)
       calls := some (terminalCalls
         (_normalize_calls row.calls row.gridValues.length) i) }
    i hlook2 rfl hterm
  rw [hsecond]

/-! ## Claim C9 (corrected): transaction release on exit paths -/

/-- Counterexample to claim C9 as stated: `advance` on a run already at its
last index returns successfully having executed only the locking select —
no commit and no rollback — so this exit path returns with the transaction
(and its row lock) still open, contradicting "no path returns with the
transaction still open". -/
theorem advance_terminal_leaves_transaction_open :
    (advance 1 "s" c9Store).1 = Except.ok 1 ∧
    (advance 1 "s" c9Store).2.2 = [TxEvent.exec] ∧
    txOpenAfter (advance 1 "s" c9Store).2.2 = true := by decide

/-- Claim C9 (amended): `create` and `current_value` close their transaction
before returning on every exit path (committing on success, rolling back
before re-raising on failure); `advance` does so on every path except the
terminal-state early return: whenever `advance` ends with the transaction
open, it is the successful no-mutation return at the last index, and on
that path exactly the locking select has run.  (The original claim's "no
path returns with the transaction still open" is refuted by
`advance_terminal_leaves_transaction_open`.) -/
theorem transaction_release_amended :
    (∀ (now : ℕ) (newId : SimId) (values : List SimEntry) (st : Store),
      txOpenAfter (create now newId values st).2.2 = false) ∧
    (∀ (now : ℕ) (simId : SimId) (st : Store),
      txOpenAfter (current_value now simId st).2.2 = false) ∧
    (∀ (now : ℕ) (simId : SimId) (st : Store),
      txOpenAfter (advance now simId st).2.2 = true →
      ∃ run : RunView, _fetch_run simId st = Except.ok run ∧
        run.currentIndex + 1 ≥ (run.values.length : ℤ) ∧
        (advance now simId st).2.1 = st ∧
        ∃ v, (advance now simId st).1 = Except.ok v) ∧
    (∀ (now : ℕ) (simId : SimId) (st : Store) (row : RunRow) (i : ℕ),
      lookupRun simId st.runs = some row → row.currentIndex = (i : ℤ) →
      i < row.gridValues.length → ¬(i + 1 < row.gridValues.length) →
      (advance now simId st).2.2 = [TxEvent.exec]) := by
  refine ⟨?_, ?_, ?_, ?_⟩
  · intro now newId values st
    unfold create
    repeat' split
    all_goals rfl
  · intro now simId st
    cases hf : _fetch_run simId st with
    | error e =>
      unfold current_value
      rw [hf]
      rfl
    | ok run =>
      unfold current_value
      rw [hf]
      dsimp only
      by_cases hge : run.currentIndex ≥ (run.values.length : ℤ)
      · rw [if_pos hge]
        cases hpg : pyGet run.values run.currentIndex with
        | ok v =>
          rw [pyGet_err_of_ge _ _ (by omega)] at hpg
          exact absurd hpg (by simp)
        | error e => rfl
      · rw [if_neg hge]
        cases hpg : pyGet run.values run.currentIndex with
        | error e => rfl
        | ok cur =>
          cases hpc : pyGet run.calls run.currentIndex with
          | error e => rfl
          | ok rc =>
            dsimp only
            cases hsa : (decrementCalls run.calls run.currentIndex
                run.values.length rc).2 with
            | false =>
              simp only [hsa, Bool.false_eq_true, if_false]
              rfl
            | true =>
              simp only [hsa, eq_self_iff_true, if_true]
              cases hpn : pyGet run.values (run.currentIndex + 1) with
              | error e => rfl
              | ok nv => rfl
  · intro now simId st hopen
    cases hf : _fetch_run simId st with
    | error e =>
      have hadv : advance now simId st =
          (Except.error e, st, [TxEvent.exec, TxEvent.rollback]) := by
        unfold advance
        rw [hf]
      rw [hadv] at hopen
      exact absurd hopen (by simp [txOpenAfter])
    | ok run =>
      by_cases hge : run.currentIndex + 1 ≥ (run.values.length : ℤ)
      · cases hpg : pyGet run.values (run.currentIndex + 1 - 1) with
        | ok v =>
          have hadv : advance now simId st = (Except.ok v, st, [TxEvent.exec]) := by
            unfold advance
            rw [hf]
            dsimp only
            rw [if_pos hge, hpg]
          exact ⟨run, rfl, hge, by rw [hadv], v, by rw [hadv]⟩
        | error e =>
          have hadv : advance now simId st =
              (Except.error e, st, [TxEvent.exec, TxEvent.rollback]) := by
            unfold advance
            rw [hf]
            dsimp only
            rw [if_pos hge, hpg]
          rw [hadv] at hopen
          exact absurd hopen (by simp [txOpenAfter])
      · cases hpg : pyGet run.values (run.currentIndex + 1) with
        | error e =>
          have hadv : advance now simId st =
              (Except.error e, st, [TxEvent.exec, TxEvent.rollback]) := by
            unfold advance
            rw [hf]
            dsimp only
            rw [if_neg hge, hpg]
          rw [hadv] at hopen
          exact absurd hopen (by simp [txOpenAfter])
        | ok nv =>
          have hadv : (advance now simId st).2.2 =
              [TxEvent.exec, TxEvent.exec, TxEvent.exec, TxEvent.commit] := by
            unfold advance
            rw [hf]
            dsimp only
            rw [if_neg hge, hpg]
          rw [hadv] at hopen
          exact absurd hopen (by simp [txOpenAfter])
  · intro now simId st row i hlook hidx hlen hterm
    rw [advance_found_terminal now simId st row i hlook hidx hlen hterm]

/-- Witness for the amended C9: a successful create is committed, a read on
a missing id is rolled back, and the terminal advance ends after just the
locking select. -/
theorem transaction_release_amended_witness :
    txOpenAfter (create 0 "w" [SimEntry.scalar 1] emptyStore).2.2 = false ∧
    txOpenAfter (current_value 1 "nope" c9Store).2.2 = false ∧
    (advance 1 "s" c9Store).2.2 = [TxEvent.exec] :=
  ⟨transaction_release_amended.1 0 "w" [SimEntry.scalar 1] emptyStore,
    (transaction_release_amended.2.1 1 "nope" c9Store),
    transaction_release_amended.2.2.2 1 "s" c9Store
      { gridValues := [1], calls := some [none], currentIndex := 0 } 0
      (by decide) (by decide) (by decide) (by decide)⟩

/-- Witness for the amended C3 at a concrete terminal-state run: the call
history is untouched and a repeated read returns the same value. -/
theorem terminal_current_value_amended_witness :
    ((current_value 1 "s" c3Store).2.1).callRecords = c3Store.callRecords ∧
    (current_value 2 "s" ((current_value 1 "s" c3Store).2.1)).1 = Except.ok 5 :=
  ⟨(terminal_current_value_amended 1 2 "s" c3Store
      { gridValues := [5], calls := some [some 2], currentIndex := 0 } 0
      (by decide) (by decide) (by decide)).2.1,
    (terminal_current_value_amended 1 2 "s" c3Store
      { gridValues := [5], calls := some [some 2], currentIndex := 0 } 0
      (by decide) (by decide) (by decide)).2.2.2⟩

/-! ## Claim C6: create postcondition -/

/-- Claim C6: for every valid non-empty input (the split succeeds) and fresh
id (modelling `uuid.uuid4()`), `create` persists the new run with cursor 0
and appends the first call record — index 0, value `values[0]`, the current
timestamp — inside the single committed transaction, returns the fresh id,
and `stats` on the fresh run is non-empty. -/
theorem create_postcondition (now : ℕ) (newId : SimId) (values : List SimEntry)
    (st : Store) (gv : List ℚ) (cc : List (Option ℤ))
    (hne : values ≠ [])
    (hsplit : _split_values_and_calls values = Except.ok (gv, cc))
    (hfresh : lookupRun newId st.runs = none) :
    create now newId values st =
      (Except.ok newId,
        { runs := st.runs ++
            [(newId, { gridValues := gv, calls := some cc, currentIndex := 0 })]
          callRecords := st.callRecords ++
            [{ simulationId := newId, calledAt := now,
               carbonIntensity := gv.getD 0 0, idx := 0 }] },
        [TxEvent.exec, TxEvent.exec, TxEvent.commit]) ∧
    lookupRun newId ((create now newId values st).2.1).runs =
      some { gridValues := gv, calls := some cc, currentIndex := 0 } ∧
    ∃ l, (stats newId ((create now newId values st).2.1)).1 = Except.ok l ∧ l ≠ [] := by
  have hgvlen : gv.length = values.length := (split_lengths hsplit).1
  have h0 : 0 < gv.length := by
    rw [hgvlen]
    exact List.length_pos.mpr hne
  have hz : pyGet gv (0 : ℤ) = Except.ok (gv.getD 0 0) := by
    have h := pyGet_coe_getD gv 0 0 h0
    simpa using h
  have hmain : create now newId values st =
      (Except.ok newId,
        { runs := st.runs ++
            [(newId, { gridValues := gv, calls := some cc, currentIndex := 0 })]
          callRecords := st.callRecords ++
            [{ simulationId := newId, calledAt := now,
               carbonIntensity := gv.getD 0 0, idx := 0 }] },
        [TxEvent.exec, TxEvent.exec, TxEvent.commit]) := by
    unfold create
    rw [if_neg (by simp only [List.isEmpty_eq_true]; exact hne), hsplit]
    dsimp only
    rw [hfresh]
    simp only [Option.isSome_none, Bool.false_eq_true, if_false]
    rw [hz]
  have hlook2 : lookupRun newId ((create now newId values st).2.1).runs =
      some { gridValues := gv, calls := some cc, currentIndex := 0 } := by
    rw [hmain]
    dsimp only
    rw [lookupRun_append_none hfresh]
    simp [lookupRun]
  refine ⟨hmain, hlook2, ?_⟩
  have hrec : recordsFor newId ((create now newId values st).2.1) =
      recordsFor newId st ++
        [{ simulationId := newId, calledAt := now,
           carbonIntensity := gv.getD 0 0, idx := 0 }] := by
    rw [hmain]
    simp only [recordsFor, List.filter_append]
    congr 1
    simp [List.filter]
  refine ⟨(sortByTime (recordsFor newId ((create now newId values st).2.1))).map
      (fun c => { provider := newId, time := c.calledAt,
                  carbon_intensity := c.carbonIntensity, estimation := true }), ?_, ?_⟩
  · unfold stats
    rw [fetch_run_some hlook2]
  · intro hempty
    have hl := congrArg List.length hempty
    rw [List.length_map, sortByTime_length, hrec, List.length_append] at hl
    simp at hl

/-- Witness for C6: a concrete two-value creation. -/
theorem create_postcondition_witness :
    (create 7 "w" [SimEntry.scalar 9, SimEntry.scalar 8] emptyStore).1 = Except.ok "w" ∧
    ∃ l, (stats "w"
        ((create 7 "w" [SimEntry.scalar 9, SimEntry.scalar 8] emptyStore).2.1)).1 =
        Except.ok l ∧ l ≠ [] := by
  have h := create_postcondition 7 "w" [SimEntry.scalar 9, SimEntry.scalar 8] emptyStore
    [9, 8] [none, none] (by decide) (by decide) (by decide)
  exact ⟨by rw [h.1], h.2.2⟩

/-! ## Claim C7: advance monotonicity and terminal idempotence -/

/-- Claim C7: `advance` never decreases the cursor; when a next slot exists
it moves the cursor forward by exactly one, appends a call record at the
new index with the current timestamp, and returns the new current value;
at the last index it mutates nothing, writes no record, and returns the
last value — in particular on a 1-element run it returns the single value
with no store mutation. -/
theorem advance_monotonic_terminal (now : ℕ) (simId : SimId) (st : Store) (row : RunRow)
    (i : ℕ) (hlook : lookupRun simId st.runs = some row)
    (hidx : row.currentIndex = (i : ℤ)) (hlen : i < row.gridValues.length) :
    (i + 1 < row.gridValues.length →
      advance now simId st =
        (Except.ok (row.gridValues.getD (i + 1) 0),
          { runs := updateRunState simId ((i : ℤ) + 1)
              (_normalize_calls row.calls row.gridValues.length) st.runs
            callRecords := st.callRecords ++
              [{ simulationId := simId, calledAt := now,
                 carbonIntensity := row.gridValues.getD (i + 1) 0, idx := (i : ℤ) + 1 }] },
          [TxEvent.exec, TxEvent.exec, TxEvent.exec, TxEvent.commit]) ∧
      lookupRun simId ((advance now simId st).2.1).runs =
        some { row with
                currentIndex := (i : ℤ) + 1
                calls := some (_normalize_calls row.calls row.gridValues.length) }) ∧
    (¬(i + 1 < row.gridValues.length) →
      advance now simId st = (Except.ok (row.gridValues.getD i 0), st, [TxEvent.exec])) ∧
    (∀ row', lookupRun simId ((advance now simId st).2.1).runs = some row' →
      row.currentIndex ≤ row'.currentIndex) ∧
    (row.gridValues.length = 1 →
      advance now simId st = (Except.ok (row.gridValues.getD 0 0), st, [TxEvent.exec])) := by
  refine ⟨?_, ?_, ?_, ?_⟩
  · intro hstep
    have hmain := advance_found_step now simId st row i hlook hidx hstep
    refine ⟨hmain, ?_⟩
    rw [hmain]
    dsimp only
    rw [lookupRun_updateRunState_self, hlook]
    rfl
  · intro hterm
    exact advance_found_terminal now simId st row i hlook hidx hlen hterm
  · intro row' hlook2
    by_cases hstep : i + 1 < row.gridValues.length
    · rw [advance_found_step now simId st row i hlook hidx hstep] at hlook2
      dsimp only at hlook2
      rw [lookupRun_updateRunState_self, hlook] at hlook2
      simp only [Option.map_some'] at hlook2
      injection hlook2 with hlook2
      rw [← hlook2, hidx]
      simp
    · rw [advance_found_terminal now simId st row i hlook hidx hlen hstep] at hlook2
      dsimp only at hlook2
      rw [hlook] at hlook2
      injection hlook2 with hlook2
      rw [← hlook2]
  · intro hone
    have hi : i = 0 := by omega
    subst hi
    exact advance_found_terminal now simId st row 0 hlook hidx hlen (by omega)

/-- Witness for C7: the advancing branch on a two-value run and the clamped
branch on a one-value run. -/
theorem advance_monotonic_terminal_witness :
    (advance 1 "t" c7Store).1 = Except.ok 4 ∧
    advance 1 "s" c9Store = (Except.ok 1, c9Store, [TxEvent.exec]) := by
  have h2 := advance_monotonic_terminal 1 "t" c7Store
    { gridValues := [3, 4], calls := some [none, none], currentIndex := 0 } 0
    (by decide) (by decide) (by decide)
  have h1 := advance_monotonic_terminal 1 "s" c9Store
    { gridValues := [1], calls := some [none], currentIndex := 0 } 0
    (by decide) (by decide) (by decide)
  refine ⟨?_, ?_⟩
  · rw [(h2.1 (by decide)).1]
    rfl
  · exact h1.2.2.2 (by decide)

/-! ## Claim C1 (corrected): threshold countdown -/

/-- Reading with `getD` after `set` at the same in-range index. -/
theorem getD_set_self {α : Type} (l : List α) (i : ℕ) (a d : α) (h : i < l.length) :
    (l.set i a).getD i d = a := by
  induction l generalizing i with
  | nil => simp at h
  | cons x xs ih =>
    cases i with
    | zero => rfl
    | succ n =>
      simp only [List.set]
      rw [List.getD_cons_succ]
      exact ih n (by simpa using h)

theorem iterateReads_succ_ok {now : ℕ} {simId : SimId} {st st1 st2 : Store} {v : ℚ}
    {tr : List TxEvent} {n : ℕ} {vs : List ℚ}
    (hcv : current_value now simId st = (Except.ok v, st1, tr))
    (hit : iterateReads now simId n st1 = some (vs, st2)) :
    iterateReads now simId (n + 1) st = some (v :: vs, st2) := by
  unfold iterateReads
  rw [hcv]
  dsimp only
  rw [hit]

/-- Counterexample to claim C1 as stated: with a threshold of `N = 0` on the
first slot, the claim says the value is returned by exactly 0 reads before
the cursor moves on; instead the first read still returns the value (5) —
one read, not zero — and that same read triggers the move to index 1. -/
theorem threshold_zero_value_still_returned :
    (_normalize_calls (some [some 0, none]) 2).getD 0 none = some 0 ∧
    (current_value 1 "s" c1zStore).1 = Except.ok 5 ∧
    lookupRun "s" ((current_value 1 "s" c1zStore).2.1).runs =
      some { gridValues := [5, 10], calls := some [some (-1), none],
             currentIndex := 1 } := by decide

/-- Countdown induction: starting from a slot `i` (with a next value) whose
normalized threshold is `r ≥ 1`, the next `r` reads all return `values[i]`;
the cursor stays at `i` through the first `r − 1` of them and reaches
`i + 1` on the `r`-th. -/
theorem reads_countdown (simId : SimId) (now : ℕ) (i : ℕ) (G : List ℚ)
    (hnext : i + 1 < G.length) :
    ∀ r : ℕ, 1 ≤ r → ∀ (st : Store) (row : RunRow),
      lookupRun simId st.runs = some row →
      row.gridValues = G →
      row.currentIndex = (i : ℤ) →
      (_normalize_calls row.calls G.length).getD i none = some (r : ℤ) →
      ∃ stN rowN,
        iterateReads now simId r st = some (List.replicate r (G.getD i 0), stN) ∧
        lookupRun simId stN.runs = some rowN ∧
        rowN.gridValues = G ∧ rowN.currentIndex = (i : ℤ) + 1 ∧
        ∀ k, k < r → ∃ stk rowk,
          iterateReads now simId k st = some (List.replicate k (G.getD i 0), stk) ∧
          lookupRun simId stk.runs = some rowk ∧ rowk.currentIndex = (i : ℤ) := by
  intro r
  induction r with
  | zero => omega
  | succ q ih =>
    intro _ st row hlook hG hidx hcount
    have hlen : i < row.gridValues.length := by rw [hG]; omega
    have hGlen : G.length = row.gridValues.length := by rw [hG]
    have hnclen : i < (_normalize_calls row.calls row.gridValues.length).length := by
      rw [normalize_calls_length]
      exact hlen
    rw [hGlen] at hcount
    by_cases hq : q = 0
    · subst hq
      have hsa : (decrementCalls (_normalize_calls row.calls row.gridValues.length) (i : ℤ)
          row.gridValues.length
          ((_normalize_calls row.calls row.gridValues.length).getD i none)).2 = true := by
        rw [hcount, decrementCalls_adv _ _ _ (by omega) (by omega)
          (by rw [← hGlen]; omega)]
      have hadv := current_value_found_adv now simId st row i hlook hidx hlen hsa
      refine ⟨(current_value now simId st).2.1,
        { row with
           currentIndex := (i : ℤ) + 1
           calls := some (decrementCalls (_normalize_calls row.calls row.gridValues.length)
             (i : ℤ) row.gridValues.length
             ((_normalize_calls row.calls row.gridValues.length).getD i none)).1 },
        ?_, ?_, ?_, ?_, ?_⟩
      · rw [← hG, hadv]
        exact iterateReads_succ_ok hadv rfl
      · rw [hadv]
        dsimp only
        rw [lookupRun_updateRunState_self, hlook]
        rfl
      · exact hG
      · rfl
      · intro k hk
        have hk0 : k = 0 := by omega
        subst hk0
        exact ⟨st, row, rfl, hlook, hidx⟩
    · have hcast : ((q + 1 : ℕ) : ℤ) - 1 = ((q : ℕ) : ℤ) := by push_cast; ring
      have hdc := decrementCalls_pos (_normalize_calls row.calls row.gridValues.length)
        (i : ℤ) row.gridValues.length (by push_cast; omega : 2 ≤ ((q + 1 : ℕ) : ℤ))
      have hsa : (decrementCalls (_normalize_calls row.calls row.gridValues.length) (i : ℤ)
          row.gridValues.length
          ((_normalize_calls row.calls row.gridValues.length).getD i none)).2 = false := by
        rw [hcount, hdc]
      have hcalls2 : (decrementCalls (_normalize_calls row.calls row.gridValues.length)
          (i : ℤ) row.gridValues.length
          ((_normalize_calls row.calls row.gridValues.length).getD i none)).1 =
          (_normalize_calls row.calls row.gridValues.length).set i (some ((q : ℕ) : ℤ)) := by
        rw [hcount, hdc]
        dsimp only
        rw [pySet_coe_lt _ i _ hnclen, hcast]
      have hnoadv := current_value_found_noadv now simId st row i hlook hidx hlen hsa
      rw [hcalls2] at hnoadv
      have hlook1 : lookupRun simId
          ({ runs := updateRunState simId (i : ℤ)
              ((_normalize_calls row.calls row.gridValues.length).set i
                (some ((q : ℕ) : ℤ))) st.runs
             callRecords := st.callRecords } : Store).runs =
          some { row with
                  currentIndex := (i : ℤ)
                  calls := some ((_normalize_calls row.calls row.gridValues.length).set i
                    (some ((q : ℕ) : ℤ))) } := by
        dsimp only
        rw [lookupRun_updateRunState_self, hlook]
        rfl
      have hcount1 : (_normalize_calls
          (some ((_normalize_calls row.calls row.gridValues.length).set i
            (some ((q : ℕ) : ℤ)))) G.length).getD i none = some ((q : ℕ) : ℤ) := by
        rw [hGlen, normalize_calls_self (by rw [List.length_set, normalize_calls_length])]
        exact getD_set_self _ i _ none hnclen
      obtain ⟨stN, rowN, hitN, hlookN, hgN, hidxN, hks⟩ :=
        ih (by omega) _ _ hlook1 (by rw [hG]) rfl hcount1
      refine ⟨stN, rowN, ?_, hlookN, hgN, hidxN, ?_⟩
      · have h1 := iterateReads_succ_ok hnoadv hitN
        rw [h1, hG]
        rfl
      · intro k hk
        cases k with
        | zero => exact ⟨st, row, rfl, hlook, hidx⟩
        | succ k1 =>
          obtain ⟨stk, rowk, hitk, hlookk, hidxk⟩ := hks k1 (by omega)
          refine ⟨stk, rowk, ?_, hlookk, hidxk⟩
          have h1 := iterateReads_succ_ok hnoadv hitk
          rw [h1, hG]
          rfl

/-- Claim C1 (amended): the concrete `[(5, 2), (10, 1)]` scenario holds as
specified (first read returns 5 and decrements `thresholds[0]` to 1; second
read returns 5 and advances the cursor to 1; third read returns 10, leaves
the cursor at the terminal index and pins `thresholds[1]` to −1).  In
general, a threshold of `N ≥ 1` on a slot with a next value means the value
is returned by exactly `N` reads before the cursor moves on, the move
happening on the `N`-th read itself; and `current_value` always returns the
value at the pre-advance cursor position.  (For `N = 0` the original
claim fails: the value is still returned by one read, see
`threshold_zero_value_still_returned` — a threshold of 0 behaves like a
threshold of 1.) -/
theorem threshold_countdown_amended :
    (lookupRun "r" c1St0.runs =
        some { gridValues := [5, 10], calls := some [some 2, some 1], currentIndex := 0 } ∧
      (current_value 1 "r" c1St0).1 = Except.ok 5 ∧
      lookupRun "r" c1St1.runs =
        some { gridValues := [5, 10], calls := some [some 1, some 1], currentIndex := 0 } ∧
      (current_value 2 "r" c1St1).1 = Except.ok 5 ∧
      lookupRun "r" c1St2.runs =
        some { gridValues := [5, 10], calls := some [some 0, some 1], currentIndex := 1 } ∧
      (current_value 3 "r" c1St2).1 = Except.ok 10 ∧
      lookupRun "r" ((current_value 3 "r" c1St2).2.1).runs =
        some { gridValues := [5, 10], calls := some [some 0, some (-1)],
               currentIndex := 1 }) ∧
    (∀ (simId : SimId) (now i : ℕ) (G : List ℚ), i + 1 < G.length →
      ∀ r : ℕ, 1 ≤ r → ∀ (st : Store) (row : RunRow),
        lookupRun simId st.runs = some row →
        row.gridValues = G →
        row.currentIndex = (i : ℤ) →
        (_normalize_calls row.calls G.length).getD i none = some (r : ℤ) →
        ∃ stN rowN,
          iterateReads now simId r st = some (List.replicate r (G.getD i 0), stN) ∧
          lookupRun simId stN.runs = some rowN ∧
          rowN.gridValues = G ∧ rowN.currentIndex = (i : ℤ) + 1 ∧
          ∀ k, k < r → ∃ stk rowk,
            iterateReads now simId k st = some (List.replicate k (G.getD i 0), stk) ∧
            lookupRun simId stk.runs = some rowk ∧ rowk.currentIndex = (i : ℤ)) ∧
    (∀ (now : ℕ) (simId : SimId) (st st2 : Store) (row : RunRow) (i : ℕ) (v : ℚ)
      (tr : List TxEvent),
      lookupRun simId st.runs = some row →
      row.currentIndex = (i : ℤ) →
      i < row.gridValues.length →
      current_value now simId st = (Except.ok v, st2, tr) →
      v = row.gridValues.getD i 0) := by
  refine ⟨by decide, ?_, ?_⟩
  · intro simId now i G hnext
    exact reads_countdown simId now i G hnext
  · intro now simId st st2 row i v tr hlook hidx hlen hcv
    cases hsa : (decrementCalls (_normalize_calls row.calls row.gridValues.length) (i : ℤ)
        row.gridValues.length
        ((_normalize_calls row.calls row.gridValues.length).getD i none)).2 with
    | true =>
      rw [current_value_found_adv now simId st row i hlook hidx hlen hsa] at hcv
      simp only [Prod.mk.injEq] at hcv
      exact (Except.ok.inj hcv.1).symm
    | false =>
      rw [current_value_found_noadv now simId st row i hlook hidx hlen hsa] at hcv
      simp only [Prod.mk.injEq] at hcv
      exact (Except.ok.inj hcv.1).symm

/-- Witness for the amended C1: with a threshold of 3 on value 7, exactly
three reads return 7, the cursor reaching index 1 on the third. -/
theorem threshold_countdown_amended_witness :
    ∃ stN rowN,
      iterateReads 5 "g" 3 c1wStore =
        some (List.replicate 3 (([7, 9] : List ℚ).getD 0 0), stN) ∧
      lookupRun "g" stN.runs = some rowN ∧
      rowN.gridValues = [7, 9] ∧ rowN.currentIndex = ((0 : ℕ) : ℤ) + 1 ∧
      ∀ k, k < 3 → ∃ stk rowk,
        iterateReads 5 "g" k c1wStore =
          some (List.replicate k (([7, 9] : List ℚ).getD 0 0), stk) ∧
        lookupRun "g" stk.runs = some rowk ∧ rowk.currentIndex = ((0 : ℕ) : ℤ) :=
  threshold_countdown_amended.2.1 "g" 5 0 [7, 9] (by decide) 3 (by decide) c1wStore
    { gridValues := [7, 9], calls := some [some 3, none], currentIndex := 0 }
    (by decide) (by decide) (by decide) (by decide)

/-! ## Claim C5: history completeness and ordering -/

theorem StoreInv.succ {t : ℕ} {st : Store} (h : StoreInv t st) : StoreInv (t + 1) st :=
  ⟨fun r hr => Nat.lt_succ_of_lt (h.times r hr), h.ordered, h.owned, h.runsOk⟩

theorem storeInv_empty : StoreInv 0 emptyStore :=
  ⟨by intro r hr; exact absurd hr (by simp [emptyStore]),
   by simp [emptyStore],
   by intro r hr; exact absurd hr (by simp [emptyStore]),
   by intro simId row h; exact absurd h (by simp [emptyStore, lookupRun])⟩

theorem lookupRun_updateRunState_isSome (id simId : SimId) (ni : ℤ)
    (nc : List (Option ℤ)) (runs : List (SimId × RunRow)) :
    (lookupRun id (updateRunState simId ni nc runs)).isSome =
      (lookupRun id runs).isSome := by
  by_cases h : id = simId
  · subst h
    rw [lookupRun_updateRunState_self]
    cases lookupRun id runs <;> rfl
  · rw [lookupRun_updateRunState_ne h]

theorem recordsFor_mk (simId : SimId) (runs : List (SimId × RunRow))
    (recs : List CallRecord) :
    recordsFor simId { runs := runs, callRecords := recs } =
      recs.filter fun c => c.simulationId = simId := rfl

theorem recordsFor_append_self (simId : SimId) (runs runs2 : List (SimId × RunRow))
    (recs : List CallRecord) (r : CallRecord) (h : r.simulationId = simId) :
    recordsFor simId { runs := runs, callRecords := recs ++ [r] } =
      recordsFor simId { runs := runs2, callRecords := recs } ++ [r] := by
  unfold recordsFor
  dsimp only
  rw [List.filter_append]
  congr 1
  simp [List.filter, h]

theorem recordsFor_append_other (simId : SimId) (runs runs2 : List (SimId × RunRow))
    (recs : List CallRecord) (r : CallRecord) (h : ¬r.simulationId = simId) :
    recordsFor simId { runs := runs, callRecords := recs ++ [r] } =
      recordsFor simId { runs := runs2, callRecords := recs } := by
  unfold recordsFor
  dsimp only
  rw [List.filter_append]
  simp [List.filter, h]

theorem inv_update_noresize {t : ℕ} {st : Store} (hinv : StoreInv t st)
    (simId : SimId) (row : RunRow) (i : ℕ) (calls2 : List (Option ℤ))
    (hlook : lookupRun simId st.runs = some row)
    (hidx : row.currentIndex = (i : ℤ)) :
    StoreInv (t + 1)
      { runs := updateRunState simId (i : ℤ) calls2 st.runs
        callRecords := st.callRecords } := by
  refine ⟨?_, ?_, ?_, ?_⟩
  · intro r hr
    exact Nat.lt_succ_of_lt (hinv.times r hr)
  · exact hinv.ordered
  · intro r hr
    rw [lookupRun_updateRunState_isSome]
    exact hinv.owned r hr
  · intro id row' hlook'
    by_cases hid : id = simId
    · subst hid
      rw [lookupRun_updateRunState_self, hlook] at hlook'
      simp only [Option.map_some'] at hlook'
      injection hlook' with hrow'
      obtain ⟨ha, hb, hc, hd⟩ := hinv.runsOk id row hlook
      subst hrow'
      refine ⟨ha, by dsimp only; positivity, by dsimp only; rw [hidx] at hc; exact hc, ?_⟩
      have hrec_eq : recordsFor id
          ({ runs := updateRunState id (i : ℤ) calls2 st.runs
             callRecords := st.callRecords } : Store) = recordsFor id st := rfl
      dsimp only
      rw [hrec_eq, hd, hidx, Int.toNat_natCast]
    · rw [lookupRun_updateRunState_ne hid] at hlook'
      obtain ⟨ha, hb, hc, hd⟩ := hinv.runsOk id row' hlook'
      exact ⟨ha, hb, hc, hd⟩

theorem inv_update_advance {t : ℕ} {st : Store} (hinv : StoreInv t st)
    (simId : SimId) (row : RunRow) (i : ℕ) (calls2 : List (Option ℤ)) (v : ℚ)
    (hlook : lookupRun simId st.runs = some row)
    (hidx : row.currentIndex = (i : ℤ))
    (hstep : i + 1 < row.gridValues.length) :
    StoreInv (t + 1)
      { runs := updateRunState simId ((i : ℤ) + 1) calls2 st.runs
        callRecords := st.callRecords ++
          [{ simulationId := simId, calledAt := t,
             carbonIntensity := v, idx := (i : ℤ) + 1 }] } := by
  refine ⟨?_, ?_, ?_, ?_⟩
  · intro r hr
    rcases List.mem_append.mp hr with h | h
    · exact Nat.lt_succ_of_lt (hinv.times r h)
    · rw [List.mem_singleton.mp h]
      exact Nat.lt_succ_self t
  · rw [List.pairwise_append]
    refine ⟨hinv.ordered, List.pairwise_singleton _ _, ?_⟩
    intro a ha b hb
    rw [List.mem_singleton.mp hb]
    exact hinv.times a ha
  · intro r hr
    rcases List.mem_append.mp hr with h | h
    · rw [lookupRun_updateRunState_isSome]
      exact hinv.owned r h
    · rw [List.mem_singleton.mp h]
      dsimp only
      rw [lookupRun_updateRunState_self, hlook]
      rfl
  · intro id row' hlook'
    by_cases hid : id = simId
    · subst hid
      rw [lookupRun_updateRunState_self, hlook] at hlook'
      simp only [Option.map_some'] at hlook'
      injection hlook' with hrow'
      obtain ⟨ha, hb, hc, hd⟩ := hinv.runsOk id row hlook
      subst hrow'
      refine ⟨ha, by dsimp only; positivity, by dsimp only; omega, ?_⟩
      have htn : ((i : ℤ) + 1).toNat = i + 1 := by omega
      dsimp only
      rw [recordsFor_append_self id _ st.runs _ _ rfl, List.map_append]
      rw [htn, List.range_succ, List.map_append]
      rw [hidx, Int.toNat_natCast] at hd
      congr 1
    · rw [lookupRun_updateRunState_ne hid] at hlook'
      obtain ⟨ha, hb, hc, hd⟩ := hinv.runsOk id row' hlook'
      refine ⟨ha, hb, hc, ?_⟩
      rw [recordsFor_append_other id _ st.runs _ _ (fun h => hid (by rw [← h]))]
      exact hd

/-- Either the creation path leaves the store untouched (validation failure,
duplicate key, or index error), or it succeeds and appends exactly the new
run row and its first call record. -/
theorem create_simulation_cases (t : ℕ) (newId : SimId) (values : List SimEntry)
    (st : Store) :
    (create_simulation t newId values st).2.1 = st ∨
    ∃ gv cc, _split_values_and_calls values = Except.ok (gv, cc) ∧
      1 ≤ gv.length ∧ lookupRun newId st.runs = none ∧
      (create_simulation t newId values st).2.1 =
        { runs := st.runs ++
            [(newId, { gridValues := gv, calls := some cc, currentIndex := 0 })]
          callRecords := st.callRecords ++
            [{ simulationId := newId, calledAt := t,
               carbonIntensity := gv.getD 0 0, idx := 0 }] } := by
  unfold create_simulation
  by_cases hl : values.length < 1
  · rw [if_pos hl]
    exact Or.inl rfl
  · rw [if_neg hl]
    cases hv : _validate_uniform_carbon_values values with
    | error e => exact Or.inl rfl
    | ok u =>
      unfold create
      rw [if_neg (by simp only [List.isEmpty_eq_true, ← List.length_eq_zero]; omega)]
      cases hs : _split_values_and_calls values with
      | error e => exact Or.inl rfl
      | ok p =>
        obtain ⟨gv, cc⟩ := p
        have hlen : 1 ≤ gv.length := by
          rw [(split_lengths hs).1]
          omega
        cases hfresh : lookupRun newId st.runs with
        | some r => exact Or.inl rfl
        | none =>
          have hz : pyGet gv 0 = Except.ok (gv.getD 0 0) := by
            have h := pyGet_coe_getD gv 0 0 (by omega)
            simpa using h
          dsimp only
          rw [hz]
          exact Or.inr ⟨gv, cc, rfl, hlen, rfl, rfl⟩

theorem inv_createOp {t : ℕ} {st : Store} (hinv : StoreInv t st)
    (newId : SimId) (values : List SimEntry) :
    StoreInv (t + 1) ((create_simulation t newId values st).2.1) := by
  rcases create_simulation_cases t newId values st with h | ⟨gv, cc, hs, hlen, hfresh, h⟩
  · rw [h]
    exact hinv.succ
  · rw [h]
    refine ⟨?_, ?_, ?_, ?_⟩
    · intro r hr
      rcases List.mem_append.mp hr with hm | hm
      · exact Nat.lt_succ_of_lt (hinv.times r hm)
      · rw [List.mem_singleton.mp hm]
        exact Nat.lt_succ_self t
    · rw [List.pairwise_append]
      refine ⟨hinv.ordered, List.pairwise_singleton _ _, ?_⟩
      intro a ha b hb
      rw [List.mem_singleton.mp hb]
      exact hinv.times a ha
    · intro r hr
      rcases List.mem_append.mp hr with hm | hm
      · have hold := hinv.owned r hm
        dsimp only
        cases hcur : lookupRun r.simulationId st.runs with
        | none => rw [hcur] at hold; exact absurd hold (by simp)
        | some q => rw [lookupRun_append_some hcur]; rfl
      · rw [List.mem_singleton.mp hm]
        dsimp only
        rw [lookupRun_append_none hfresh]
        simp [lookupRun]
    · intro id row' hlook'
      dsimp only at hlook'
      cases hcur : lookupRun id st.runs with
      | some rowOld =>
        rw [lookupRun_append_some hcur] at hlook'
        injection hlook' with hrow'
        subst hrow'
        obtain ⟨ha, hb, hc, hd⟩ := hinv.runsOk id rowOld hcur
        refine ⟨ha, hb, hc, ?_⟩
        have hnewid : ¬(newId = id) := by
          intro hh
          rw [hh, hcur] at hfresh
          exact absurd hfresh (by simp)
        rw [recordsFor_append_other id _ st.runs _ _ hnewid]
        exact hd
      | none =>
        rw [lookupRun_append_none hcur] at hlook'
        rw [lookupRun_cons] at hlook'
        by_cases hnew : newId = id
        · rw [if_pos hnew] at hlook'
          injection hlook' with hrow'
          subst hrow'
          refine ⟨hlen, by dsimp only; omega, by dsimp only; exact_mod_cast hlen, ?_⟩
          rw [recordsFor_append_self id _ st.runs _ _ hnew]
          have hnone : recordsFor id { runs := st.runs, callRecords := st.callRecords } = [] := by
            rw [List.eq_nil_iff_forall_not_mem]
            intro r hr
            rw [recordsFor_mk] at hr
            have hmem := List.of_mem_filter hr
            have hrid : r.simulationId = id := by
              first
              | exact hmem
              | exact of_decide_eq_true hmem
            have hown := hinv.owned r (List.mem_of_mem_filter hr)
            rw [hrid, hcur] at hown
            exact absurd hown (by simp)
          rw [hnone]
          dsimp only
          rfl
        · rw [if_neg hnew] at hlook'
          exact Option.noConfusion hlook'

theorem inv_currentValueOp {t : ℕ} {st : Store} (hinv : StoreInv t st) (simId : SimId) :
    StoreInv (t + 1) ((current_value t simId st).2.1) := by
  cases hlook : lookupRun simId st.runs with
  | none =>
    rw [current_value_not_found t hlook]
    exact hinv.succ
  | some row =>
    obtain ⟨ha, hb, hc, _⟩ := hinv.runsOk simId row hlook
    have hidx : row.currentIndex = ((row.currentIndex.toNat : ℕ) : ℤ) := by omega
    have hleni : row.currentIndex.toNat < row.gridValues.length := by omega
    cases hsa : (decrementCalls (_normalize_calls row.calls row.gridValues.length)
        ((row.currentIndex.toNat : ℕ) : ℤ) row.gridValues.length
        ((_normalize_calls row.calls row.gridValues.length).getD
          row.currentIndex.toNat none)).2 with
    | false =>
      rw [current_value_found_noadv t simId st row row.currentIndex.toNat hlook hidx
        hleni hsa]
      exact inv_update_noresize hinv simId row row.currentIndex.toNat _ hlook hidx
    | true =>
      rw [current_value_found_adv t simId st row row.currentIndex.toNat hlook hidx
        hleni hsa]
      have hbound := decrementCalls_advance_bound hsa
      exact inv_update_advance hinv simId row row.currentIndex.toNat _ _ hlook hidx
        (by omega)

theorem inv_advanceOp {t : ℕ} {st : Store} (hinv : StoreInv t st) (simId : SimId) :
    StoreInv (t + 1) ((advance t simId st).2.1) := by
  cases hlook : lookupRun simId st.runs with
  | none =>
    rw [advance_not_found t hlook]
    exact hinv.succ
  | some row =>
    obtain ⟨ha, hb, hc, _⟩ := hinv.runsOk simId row hlook
    have hidx : row.currentIndex = ((row.currentIndex.toNat : ℕ) : ℤ) := by omega
    have hleni : row.currentIndex.toNat < row.gridValues.length := by omega
    by_cases hstep : row.currentIndex.toNat + 1 < row.gridValues.length
    · rw [advance_found_step t simId st row row.currentIndex.toNat hlook hidx hstep]
      exact inv_update_advance hinv simId row row.currentIndex.toNat _ _ hlook hidx hstep
    · rw [advance_found_terminal t simId st row row.currentIndex.toNat hlook hidx
        hleni hstep]
      exact hinv.succ

theorem applyOp_inv {t : ℕ} {st : Store} (op : SimOp) (hinv : StoreInv t st) :
    StoreInv (t + 1) (applyOp t op st) := by
  cases op with
  | createOp newId values => exact inv_createOp hinv newId values
  | currentValueOp simId => exact inv_currentValueOp hinv simId
  | advanceOp simId => exact inv_advanceOp hinv simId

theorem execOps_inv (ops : List SimOp) :
    ∀ (t : ℕ) (st : Store), StoreInv t st → ∃ t2, StoreInv t2 (execOps ops t st) := by
  induction ops with
  | nil =>
    intro t st hinv
    exact ⟨t, hinv⟩
  | cons op rest ih =>
    intro t st hinv
    exact ih (t + 1) (applyOp t op st) (applyOp_inv op hinv)

/-- Claim C5: in every store reachable by a sequence of engine operations
run under a strictly increasing clock, each run's call history holds
exactly one record per cursor position ever occupied — index 0 written at
creation through the current cursor, one per auto- or manual advance — in
strictly ascending timestamp order, and `stats` returns exactly those
records ordered by timestamp ascending, which coincides with their
insertion order. -/
theorem history_completeness (ops : List SimOp) (simId : SimId) (row : RunRow)
    (hlook : lookupRun simId (execOps ops 0 emptyStore).runs = some row) :
    (recordsFor simId (execOps ops 0 emptyStore)).map CallRecord.idx =
      (List.range (row.currentIndex.toNat + 1)).map Int.ofNat ∧
    (recordsFor simId (execOps ops 0 emptyStore)).Pairwise
      (fun a b => a.calledAt < b.calledAt) ∧
    stats simId (execOps ops 0 emptyStore) =
      (Except.ok ((recordsFor simId (execOps ops 0 emptyStore)).map fun c =>
          { provider := simId, time := c.calledAt,
            carbon_intensity := c.carbonIntensity, estimation := true }),
        execOps ops 0 emptyStore, [TxEvent.exec, TxEvent.exec]) := by
  obtain ⟨t2, hinv⟩ := execOps_inv ops 0 emptyStore storeInv_empty
  obtain ⟨ha, hb, hc, hd⟩ := hinv.runsOk simId row hlook
  have hpw : (recordsFor simId (execOps ops 0 emptyStore)).Pairwise
      (fun a b => a.calledAt < b.calledAt) := by
    unfold recordsFor
    exact List.Pairwise.filter _ hinv.ordered
  refine ⟨hd, hpw, ?_⟩
  unfold stats
  rw [fetch_run_some hlook]
  rw [sortByTime_eq_self (hpw.imp fun h => le_of_lt h)]

/-- Witness for C5: after the concrete sequence, the run's history has
exactly the records for indices 0 and 1. -/
theorem history_completeness_witness :
    lookupRun "r" (execOps c5Ops 0 emptyStore).runs =
      some { gridValues := [5, 10], calls := some [some 0, some 1], currentIndex := 1 } ∧
    (recordsFor "r" (execOps c5Ops 0 emptyStore)).map CallRecord.idx =
      (List.range 2).map Int.ofNat :=
  ⟨by decide,
    (history_completeness c5Ops "r"
      { gridValues := [5, 10], calls := some [some 0, some 1], currentIndex := 1 }
      (by decide)).1⟩

end Elephant
